import Mathlib

/-
Verification of the HSBC statement transaction extractor.

The definitions below are a shallow embedding of the Python sources:
  - parser/transaction_extractor.py  (extraction engine, summary, validator)
  - parser/pdf_parser.py             (parse orchestration / ParseResult)

Numbers: Python floats are modelled as exact rationals; token coordinates
are rationals; Python's round(x, 0) is modelled as exact round-half-to-even
on the rational.  Strings are ASCII-faithful (Char.toUpper / Char.toLower
model str.upper / str.lower on the ASCII fragment actually reachable here).
-/

/-! ## String primitives (modelling Python's str operations) -/

/-- Python str.upper, character-wise (ASCII fragment). -/
def pyUpper (s : String) : String := ⟨s.data.map Char.toUpper⟩

/-- Python whitespace characters, as used by str.strip and the regex class \s. -/
def pyIsSpace (c : Char) : Bool :=
  c = ' ' || c = '\t' || c = '\n' || c = '\r' || c = '\x0b' || c = '\x0c'

/-- Python str.strip(): drop leading and trailing whitespace. -/
def pyStrip (s : String) : String :=
  ⟨((s.data.dropWhile pyIsSpace).reverse.dropWhile pyIsSpace).reverse⟩

/-- Python str.isdigit() on the ASCII fragment: nonempty and all digits. -/
def pyIsDigit (s : String) : Bool :=
  !s.data.isEmpty && s.data.all Char.isDigit

/-- Whether the first list is a prefix of the second (character lists). -/
def strHasPre : List Char → List Char → Bool
  | [], _ => true
  | _ :: _, [] => false
  | c :: cs, d :: ds => c == d && strHasPre cs ds

/-- Whether needle occurs as a contiguous substring of the haystack. -/
def strHasSub (needle : List Char) : List Char → Bool
  | [] => needle.isEmpty
  | c :: cs => strHasPre needle (c :: cs) || strHasSub needle cs

/-- Python `needle in hay` on strings. -/
def hasSubstr (hay needle : String) : Bool := strHasSub needle.data hay.data

/-- Numeric value of a digit string (most significant first). -/
def natVal (cs : List Char) : ℕ := cs.foldl (fun n c => 10 * n + (c.toNat - 48)) 0

/-- Model of Python float() on the decimal fragment reachable from this code:
an optional integer part, an optional '.' with fraction digits (every call
site passes strings matched by a [0-9,]+\.[0-9]-squared shape, commas
removed, so the exotic float() syntax is unreachable). Returns none where
float() raises ValueError. -/
def pyFloatCore (ip : List Char) : List Char → Option ℚ
  | [] => if ip.isEmpty then none else some (mkRat (natVal ip) 1)
  | '.' :: fr =>
    if fr.length = (fr.takeWhile Char.isDigit).length ∧
        ¬(ip.isEmpty ∧ (fr.takeWhile Char.isDigit).isEmpty) then
      some (mkRat (natVal ip * 10 ^ (fr.takeWhile Char.isDigit).length +
          natVal (fr.takeWhile Char.isDigit)) (10 ^ (fr.takeWhile Char.isDigit).length))
    else none
  | _ => none

/-- The integer part is the maximal digit run; the rest must be empty or a
dot followed by digits only. -/
def pyFloat (s : String) : Option ℚ :=
  pyFloatCore (s.data.takeWhile Char.isDigit)
    (s.data.drop (s.data.takeWhile Char.isDigit).length)

/-- transaction_extractor.parse_amount: strip commas, pound signs and
whitespace, then parse as a float; 0.0 on empty input or parse failure. -/
def parse_amount (s : String) : ℚ :=
  if s = "" then 0
  else
    match pyFloat (pyStrip ⟨s.data.filter (fun c => !(c == ',' || c == '£'))⟩) with
    | some v => v
    | none => 0

/-! ## Dates (modelling datetime.strptime with format %d %b %y) -/

/-- A calendar date as produced by parse_date_parts. -/
structure Date where
  year : ℕ
  month : ℕ
  day : ℕ
deriving DecidableEq

/-- The fixed month-abbreviation vocabulary (DATE_PATTERN / the inline list). -/
def monthAbbrevs : List String :=
  ["Jan", "Feb", "Mar", "Apr", "May", "Jun", "Jul", "Aug", "Sep", "Oct", "Nov", "Dec"]

/-- strptime %b: case-insensitive month-abbreviation lookup, 1-based. -/
def monthNum (s : String) : Option ℕ :=
  (monthAbbrevs.findIdx? (fun m => m.data.map Char.toLower == s.data.map Char.toLower)).map (· + 1)

/-- Gregorian leap-year rule (datetime validation). -/
def isLeap (y : ℕ) : Bool :=
  y % 4 = 0 && (y % 100 ≠ 0 || y % 400 = 0)

/-- Days in a month, as validated by datetime construction. -/
def daysInMonth (m y : ℕ) : ℕ :=
  if m = 2 then (if isLeap y then 29 else 28)
  else if m = 4 ∨ m = 6 ∨ m = 9 ∨ m = 11 then 30
  else 31

/-- transaction_extractor.parse_date_parts: strptime('%d %b %y') on
"day month year". %d is one or two digits with value 1..31 (then validated
against the month), %b a case-insensitive month abbreviation, %y exactly two
digits with the 69-pivot century rule. None models ValueError. -/
def parse_date_parts (day month year : String) : Option Date :=
  if pyIsDigit day ∧ day.length ≤ 2 ∧ pyIsDigit year ∧ year.length = 2 then
    match monthNum month with
    | none => none
    | some m =>
      let d := natVal day.data
      let y2 := natVal year.data
      let y := if y2 ≤ 68 then 2000 + y2 else 1900 + y2
      if 1 ≤ d ∧ d ≤ daysInMonth m y then some ⟨y, m, d⟩ else none
  else none

/-- Chronological comparison of dates (datetime ordering, day resolution). -/
def dateLe (a b : Date) : Bool :=
  decide (a.year < b.year) ||
    (a.year == b.year &&
      (decide (a.month < b.month) || (a.month == b.month && decide (a.day ≤ b.day))))

/-! ## Token shapes and vocabulary -/

/-- AMOUNT_PATTERN: one or more digits/commas, a dot, exactly two digits
(the whole token). -/
def amtChar (c : Char) : Bool := c.isDigit || c == ','

/-- Whether a token's text matches AMOUNT_PATTERN. -/
def amountShaped (s : String) : Bool :=
  match s.data.reverse with
  | d2 :: d1 :: c :: rest =>
    !rest.isEmpty && rest.all amtChar && c == '.' && d1.isDigit && d2.isDigit
  | _ => false

/-- PAYMENT_TYPES: the fixed payment-type code vocabulary. -/
def PAYMENT_TYPES : List String :=
  ["DD", "VIS", "BP", "CR", "SO", "OBP", ")))", "FPO", "FPI", "CHQ", "ATM", "TFR", "INT", "DR", "DL"]

/-- The boilerplate substrings tested against each upper-cased line. -/
def SKIP_PATTERNS : List String :=
  ["CONTACT TEL", "TEXT PHONE", "WWW.HSBC", "YOUR STATEMENT",
   "ACCOUNT NAME", "SORTCODE", "SHEET NUMBER", "BRANCH IDENTIFIER",
   "INTERNATIONAL BANK", "OPENINGBALANCE", "CLOSINGBALANCE",
   "PAYMENTS IN", "PAYMENTS OUT", "ARRANGEDOVERDRAFT",
   "HANOVER STREET", "PAYMENT TYPE AND DETAILS",
   "YOUR BANK ACCOUNT", "YOUR DEPOSIT", "FINANCIAL SERVICES",
   "CREDIT INTEREST", "DEBIT INTEREST", "AER BALANCE", "EAR BALANCE"]

/-! ## Data model -/

/-- A pdfplumber word: text with its left offset x0 and vertical offset top. -/
structure Token where
  text : String
  x0 : ℚ
  top : ℚ
deriving DecidableEq

/-- A word within a grouped line: horizontal position and text. -/
structure TokenXY where
  x : ℚ
  text : String
deriving DecidableEq

/-- transaction_extractor.Transaction. -/
structure Transaction where
  date : Date
  payment_type : String
  description : String
  paid_out : Option ℚ
  paid_in : Option ℚ
  balance : Option ℚ
  raw_lines : List String
deriving DecidableEq

/-- transaction_extractor.StatementSummary. -/
structure StatementSummary where
  opening_balance : ℚ
  closing_balance : ℚ
  payments_in : ℚ
  payments_out : ℚ
  statement_start : Option Date
  statement_end : Option Date
deriving DecidableEq

/-- The error / warning messages the parser can record (the formatted
figures interpolated into the Python strings are abstracted away; only the
identity of each message matters to the control flow). -/
inductive Msg where
  | fileNotFound
  | notPdf
  | parseException
  | noContent
  | noTransactions
  | noSummary
  | paymentsInMismatch
  | paymentsOutMismatch
  | balanceMismatch
deriving DecidableEq

/-! ## Stable sorting (modelling Python's stable list.sort / sorted) -/

/-- Insert x after every element y with le y x (so after equal elements):
the insertion step of a stable insertion sort. -/
def insSorted {α : Type _} (le : α → α → Bool) (x : α) : List α → List α
  | [] => [x]
  | y :: ys => if le y x then y :: insSorted le x ys else x :: y :: ys

/-- Stable sort: fold the stable insertion over the list, left to right. -/
def stableSort {α : Type _} (le : α → α → Bool) (l : List α) : List α :=
  l.foldl (fun acc x => insSorted le x acc) []

/-- Integer comparison as a Bool, for sorting line keys. -/
def intLe (a b : ℤ) : Bool := decide (a ≤ b)

/-- Comparison of line words by horizontal position (sorted key=x). -/
def xLe (a b : TokenXY) : Bool := decide (a.x ≤ b.x)

/-- Comparison of transactions by date (sort key=lambda t: t.date). -/
def txLe (a b : Transaction) : Bool := dateLe a.date b.date

/-! ## Line grouping -/

/-- Python round(q, 0): round half to even, on the exact rational. -/
def rnd (q : ℚ) : ℤ :=
  let n := q.num
  let d : ℤ := (q.den : ℤ)
  let f := Int.fdiv n d
  let r := n - f * d
  if 2 * r < d then f
  else if d < 2 * r then f + 1
  else if f % 2 = 0 then f else f + 1

/-- Distinct keys in first-occurrence order (dict key insertion order). -/
def firstKeys (ks : List ℤ) : List ℤ :=
  ks.foldl (fun acc k => if k ∈ acc then acc else acc ++ [k]) []

/-- Group a page's words into lines keyed by rounded top, lines in
ascending key order, words within a line sorted (stably) by x. -/
def groupLines (words : List Token) : List (List TokenXY) :=
  let keyed := words.map (fun w => (rnd w.top, TokenXY.mk w.x0 w.text))
  let ys := stableSort intLe (firstKeys (keyed.map Prod.fst))
  ys.map (fun y => stableSort xLe ((keyed.filter (fun p => p.fst == y)).map Prod.snd))

/-! ## Column classification (the per-word loop of
extract_transactions_from_words) -/

/-- The per-line component accumulator (date_parts, payment_type,
description_words, paid_out, paid_in, balance of one line). -/
structure LineAcc where
  date_parts : List String
  payment_type : Option String
  description_words : List String
  paid_out : Option ℚ
  paid_in : Option ℚ
  balance : Option ℚ
deriving DecidableEq

/-- The empty per-line accumulator. -/
def initLineAcc : LineAcc := ⟨[], none, [], none, none, none⟩

/-- One iteration of the word-classification loop: the if/elif chain over
x-position and content shape (column cutoffs 100 / 130 / 350 / 430 / 510). -/
def processWord (a : LineAcc) (w : TokenXY) : LineAcc :=
  if w.x < 100 then
    if pyIsDigit w.text = true ∧ w.text.length ≤ 2 then
      { a with date_parts := a.date_parts ++ [w.text] }
    else if w.text ∈ monthAbbrevs then
      { a with date_parts := a.date_parts ++ [w.text] }
    else if pyIsDigit w.text = true ∧ w.text.length = 2 ∧ a.date_parts.length = 2 then
      { a with date_parts := a.date_parts ++ [w.text] }
    else a
  else if 100 ≤ w.x ∧ w.x < 130 then
    if pyUpper w.text ∈ PAYMENT_TYPES.map pyUpper then
      { a with payment_type := some (pyUpper w.text) }
    else if w.text = ")))" then
      { a with payment_type := some ")))" }
    else
      { a with description_words := a.description_words ++ [w.text] }
  else if amountShaped w.text then
    if 350 ≤ w.x ∧ w.x < 430 then { a with paid_out := some (parse_amount w.text) }
    else if 430 ≤ w.x ∧ w.x < 510 then { a with paid_in := some (parse_amount w.text) }
    else if 510 ≤ w.x then { a with balance := some (parse_amount w.text) }
    else { a with description_words := a.description_words ++ [w.text] }
  else if 130 ≤ w.x ∧ w.x < 350 then
    { a with description_words := a.description_words ++ [w.text] }
  else a

/-- Classify all words of one line. -/
def classifyLine (ws : List TokenXY) : LineAcc := ws.foldl processWord initLineAcc

/-! ## The transaction assembler state machine -/

/-- The document-level accumulator of extract_transactions_from_words,
together with the transactions emitted so far and the (never written)
errors list. -/
structure ExtState where
  current_date : Option Date
  current_payment_type : Option String
  current_description_parts : List String
  current_paid_out : Option ℚ
  current_paid_in : Option ℚ
  current_balance : Option ℚ
  transactions : List Transaction
  errors : List Msg
deriving DecidableEq

/-- The initial assembler state. -/
def initExtState : ExtState := ⟨none, none, [], none, none, none, [], []⟩

/-- Python truthiness of an optional float (None and 0.0 are falsy). -/
def optTruthy : Option ℚ → Bool
  | none => false
  | some x => decide (x ≠ 0)

/-- Python truthiness of an optional string (None and "" are falsy). -/
def strTruthy : Option String → Bool
  | none => false
  | some s => decide (s ≠ "")

/-- save_transaction: emit the accumulated candidate if date, payment type
and at least one (truthy) amount are present, then reset description and
amount slots. Date and payment type persist. -/
def save_transaction (s : ExtState) : ExtState :=
  let keep : List Transaction :=
    match s.current_date, s.current_payment_type with
    | some d, some pt =>
      if decide (pt ≠ "") && (optTruthy s.current_paid_out || optTruthy s.current_paid_in) then
        [⟨d, pt, String.intercalate " " s.current_description_parts,
          s.current_paid_out, s.current_paid_in, s.current_balance, []⟩]
      else []
    | _, _ => []
  { s with transactions := s.transactions ++ keep,
           current_description_parts := [],
           current_paid_out := none,
           current_paid_in := none,
           current_balance := none }

/-- The upper-cased space-joined text of a line. -/
def lineJoinedUpper (ws : List TokenXY) : String :=
  pyUpper (String.intercalate " " (ws.map (fun w => w.text)))

/-- Whether a line is boilerplate noise (any skip substring occurs). -/
def isNoiseLine (ws : List TokenXY) : Bool :=
  SKIP_PATTERNS.any (fun p => hasSubstr (lineJoinedUpper ws) p)

/-- Python .replace(' ', ''): remove space characters only. -/
def removeSpaces (s : String) : String := ⟨s.data.filter (fun c => !(c == ' '))⟩

/-- Line transition 1: exactly three date parts finalize the in-flight
transaction and set (possibly clear, on an unparsable date) current_date. -/
def lineDateStep (s : ExtState) (a : LineAcc) : ExtState :=
  match a.date_parts with
  | [p1, p2, p3] => { save_transaction s with current_date := parse_date_parts p1 p2 p3 }
  | _ => s

/-- Line transition 2: a payment-type code anchors a new transaction,
first finalizing the previous one when it already has a truthy amount. -/
def linePtStep (s1 : ExtState) (a : LineAcc) : ExtState :=
  match a.payment_type with
  | some pt =>
    if pt = "" then s1
    else if strTruthy s1.current_payment_type &&
            (optTruthy s1.current_paid_out || optTruthy s1.current_paid_in) then
      { save_transaction s1 with current_payment_type := some pt }
    else { s1 with current_payment_type := some pt }
  | none => s1

/-- Line transition 3: description words accumulate only under an active
payment type. -/
def lineDescStep (s2 : ExtState) (a : LineAcc) : ExtState :=
  if ¬ a.description_words.isEmpty = true ∧ strTruthy s2.current_payment_type = true then
    { s2 with current_description_parts := s2.current_description_parts ++ a.description_words }
  else s2

/-- Line transition 4: amounts found on the line overwrite the slots. -/
def lineAmountStep (s3 : ExtState) (a : LineAcc) : ExtState :=
  { s3 with
    current_paid_out := match a.paid_out with | some v => some v | none => s3.current_paid_out,
    current_paid_in := match a.paid_in with | some v => some v | none => s3.current_paid_in,
    current_balance := match a.balance with | some v => some v | none => s3.current_balance }

/-- Process one grouped line: noise filter, balance-forward markers, then
classification followed by the four fixed-order state transitions. -/
def processLine (s : ExtState) (ws : List TokenXY) : ExtState :=
  if isNoiseLine ws then s
  else if hasSubstr (removeSpaces (lineJoinedUpper ws)) "BALANCEBROUGHTFORWARD" then s
  else if hasSubstr (removeSpaces (lineJoinedUpper ws)) "BALANCECARRIEDFORWARD" then
    { save_transaction s with current_payment_type := none }
  else
    lineAmountStep
      (lineDescStep (linePtStep (lineDateStep s (classifyLine ws)) (classifyLine ws))
        (classifyLine ws))
      (classifyLine ws)

/-- Process one page: group its words into lines and fold the line step. -/
def processPage (s : ExtState) (words : List Token) : ExtState :=
  (groupLines words).foldl processLine s

/-- The assembler state after all pages (before the trailing save). -/
def extractRunState (pages_words : List (List Token)) : ExtState :=
  pages_words.foldl processPage initExtState

/-- extract_transactions_from_words: run the state machine over all pages,
save the last in-flight transaction, sort by date (stably), and return the
(always empty) error list. -/
def extract_transactions_from_words (pages_words : List (List Token)) :
    List Transaction × List Msg :=
  (stableSort txLe (save_transaction (extractRunState pages_words)).transactions,
    (save_transaction (extractRunState pages_words)).errors)

/-! ## Summary extraction (the four re.search patterns of extract_summary)

Each pattern has the shape  Word1 s? \s* Word2 \s* pound? ([0-9,]+ . dd)
matched case-insensitively and unanchored (re.search scans left to right).
The only backtracking point of these patterns is the optional s after
"Payment"; the digit run cannot backtrack because '.' is not a digit or
comma, so the leftmost match is computed deterministically below. -/

/-- Match a literal word case-insensitively; return the rest on success. -/
def matchCI : List Char → List Char → Option (List Char)
  | [], rest => some rest
  | _ :: _, [] => none
  | p :: ps, c :: cs => if p.toLower == c.toLower then matchCI ps cs else none

/-- Greedily consume \s* (regex whitespace). -/
def skipWS (cs : List Char) : List Char := cs.dropWhile pyIsSpace

/-- Match the captured group ([0-9,]+ dot digit digit) at this position and
return the parsed amount of the captured text. -/
def matchAmount (cs : List Char) : Option ℚ :=
  let run := cs.takeWhile amtChar
  let rest := cs.drop run.length
  if run.isEmpty then none
  else
    match rest with
    | '.' :: d1 :: d2 :: _ =>
      if d1.isDigit && d2.isDigit then
        some (parse_amount ⟨run ++ ['.', d1, d2]⟩)
      else none
    | _ => none

/-- Match  Word2 \s* pound? (amount)  at this position. -/
def matchTail (w2 : List Char) (cs : List Char) : Option ℚ :=
  match matchCI w2 (skipWS cs) with
  | none => none
  | some r2 =>
    let r3 := skipWS r2
    let r4 := match r3 with
      | '£' :: t => t
      | _ => r3
    matchAmount r4

/-- Match the whole pattern  Word1 s? \s* Word2 \s* pound? (amount)  at this
position (the optional s is tried greedily first, as the regex engine does). -/
def matchPatAt (w1 : List Char) (optS : Bool) (w2 : List Char) (cs : List Char) : Option ℚ :=
  match matchCI w1 cs with
  | none => none
  | some r1 =>
    if optS then
      match r1 with
      | c :: rest =>
        if c.toLower == 's' then
          match matchTail w2 rest with
          | some v => some v
          | none => matchTail w2 r1
        else matchTail w2 r1
      | [] => matchTail w2 r1
    else matchTail w2 r1

/-- re.search: try the pattern at each start position, left to right. -/
def scanPat (w1 : List Char) (optS : Bool) (w2 : List Char) : List Char → Option ℚ
  | [] => matchPatAt w1 optS w2 []
  | c :: cs =>
    match matchPatAt w1 optS w2 (c :: cs) with
    | some v => some v
    | none => scanPat w1 optS w2 cs

/-- The opening-balance pattern search. -/
def findOpeningBalance (t : String) : Option ℚ :=
  scanPat "Opening".data false "Balance".data t.data

/-- The closing-balance pattern search. -/
def findClosingBalance (t : String) : Option ℚ :=
  scanPat "Closing".data false "Balance".data t.data

/-- The payments-in pattern search (optional s after Payment). -/
def findPaymentsIn (t : String) : Option ℚ :=
  scanPat "Payment".data true "In".data t.data

/-- The payments-out pattern search (optional s after Payment). -/
def findPaymentsOut (t : String) : Option ℚ :=
  scanPat "Payment".data true "Out".data t.data

/-- How many of the four summary patterns matched (len of the summary dict). -/
def summaryFieldsFound (t : String) : ℕ :=
  ([(findOpeningBalance t).isSome, (findClosingBalance t).isSome,
    (findPaymentsIn t).isSome, (findPaymentsOut t).isSome].filter id).length

/-- transaction_extractor.extract_summary: a StatementSummary is produced
only when at least two of the four patterns matched; unmatched fields
default to zero. -/
def extract_summary (text : String) : Option StatementSummary :=
  if 2 ≤ summaryFieldsFound text then
    some ⟨(findOpeningBalance text).getD 0, (findClosingBalance text).getD 0,
          (findPaymentsIn text).getD 0, (findPaymentsOut text).getD 0, none, none⟩
  else none

/-! ## Validation -/

/-- Sum of paid_in over the transactions (t.paid_in or 0). -/
def totalIn (txs : List Transaction) : ℚ := (txs.map (fun t => t.paid_in.getD 0)).sum

/-- Sum of paid_out over the transactions (t.paid_out or 0). -/
def totalOut (txs : List Transaction) : ℚ := (txs.map (fun t => t.paid_out.getD 0)).sum

/-- transaction_extractor.validate_transactions: totals against the summary
with absolute tolerance 0.02; (is_valid, messages). -/
def validate_transactions (txs : List Transaction) (summary : Option StatementSummary) :
    Bool × List Msg :=
  if txs.isEmpty then (false, [Msg.noTransactions])
  else
    match summary with
    | none => (true, [Msg.noSummary])
    | some s =>
      let total_in := totalIn txs
      let total_out := totalOut txs
      let tolerance : ℚ := mkRat 2 100
      let e1 : List Msg :=
        if tolerance < |total_in - s.payments_in| then [Msg.paymentsInMismatch] else []
      let e2 : List Msg :=
        if tolerance < |total_out - s.payments_out| then [Msg.paymentsOutMismatch] else []
      let expected_closing := s.opening_balance + total_in - total_out
      let e3 : List Msg :=
        if tolerance < |expected_closing - s.closing_balance| then [Msg.balanceMismatch] else []
      let errs := e1 ++ e2 ++ e3
      (errs.isEmpty, errs)

/-! ## Parse orchestration (pdf_parser.HSBCStatementParser.parse)

The filesystem / pdfplumber boundary is abstracted into a PdfInput value:
whether the path exists, whether the suffix is .pdf, and either the pages
(each page's words and text; a page whose per-page extraction raised is
represented with empty words and text, as _extract_words_and_text converts
it) or none for an exception escaping to the outer try. -/

/-- One page as delivered by _extract_words_and_text. -/
structure PageData where
  words : List Token
  text : String
deriving DecidableEq

/-- The abstracted input of one parse call. -/
structure PdfInput where
  filename : String
  fileExists : Bool
  isPdf : Bool
  openResult : Option (List PageData)
deriving DecidableEq

/-- pdf_parser.ParseResult. -/
structure ParseResult where
  success : Bool
  transactions : List Transaction
  summary : Option StatementSummary
  errors : List Msg
  warnings : List Msg
  filename : String
  page_count : ℕ
deriving DecidableEq

/-- HSBCStatementParser.parse. -/
def parse (inp : PdfInput) : ParseResult :=
  if !inp.fileExists then ⟨false, [], none, [Msg.fileNotFound], [], inp.filename, 0⟩
  else if !inp.isPdf then ⟨false, [], none, [Msg.notPdf], [], inp.filename, 0⟩
  else
    match inp.openResult with
    | none => ⟨false, [], none, [Msg.parseException], [], inp.filename, 0⟩
    | some pages =>
      let pages_words := pages.map (fun p => p.words)
      let pc := pages_words.length
      if pages_words.isEmpty then
        ⟨false, [], none, [Msg.noContent], [], inp.filename, pc⟩
      else
        let full_text := String.intercalate "\n" (pages.map (fun p => p.text))
        let summary := extract_summary full_text
        let res := extract_transactions_from_words pages_words
        let warnings : List Msg :=
          match summary with
          | some s =>
            let v := validate_transactions res.fst (some s)
            if v.fst then [] else v.snd
          | none => []
        ⟨decide (res.snd = [] ∧ 0 < res.fst.length), res.fst, summary, res.snd,
          warnings, inp.filename, pc⟩

/-! ## Invariant predicates and concrete inputs used by the theorems -/

/-- The amount invariant of an emitted transaction: both amounts are absent
or non-negative, and at least one is present and strictly positive
(expressed through getD 0: an absent amount contributes 0). -/
def amountsOk (t : Transaction) : Prop :=
  0 ≤ t.paid_out.getD 0 ∧ 0 ≤ t.paid_in.getD 0 ∧
    (0 < t.paid_out.getD 0 ∨ 0 < t.paid_in.getD 0)

/-- The assembler-state invariant behind amountsOk: every emitted
transaction satisfies it and the in-flight amount slots are non-negative. -/
def stateAmountsOk (s : ExtState) : Prop :=
  (∀ t ∈ s.transactions, amountsOk t) ∧
    0 ≤ s.current_paid_out.getD 0 ∧ 0 ≤ s.current_paid_in.getD 0

/-- C1 witness: an accumulator holding a date, a payment type and a nonzero
paid-out amount. -/
def c1emitState : ExtState :=
  ⟨some ⟨2024, 1, 5⟩, some "DD", ["Direct", "Debit"], some (mkRat 1250 100), none, none, [], []⟩

/-- C1 witness: an accumulator whose only amount is a held zero. -/
def c1dropState : ExtState :=
  ⟨some ⟨2024, 1, 5⟩, some "DD", ["Direct", "Debit"], some 0, none, none, [], []⟩

/-- C1 counterexample input: a dated anchor line whose only amount token is
"0.00" in the paid-out band. -/
def c1pages : List (List Token) :=
  [[⟨"5", 20, 10⟩, ⟨"Jan", 40, 10⟩, ⟨"24", 60, 10⟩, ⟨"DD", 110, 10⟩, ⟨"0.00", 400, 10⟩]]

/-- C4 witness transactions: one transaction paying out 5.00. -/
def c4txs : List Transaction := [⟨⟨2024, 1, 5⟩, "DD", "X", some 5, none, none, []⟩]

/-- C4 witness summary: all four declared totals zero. -/
def c4sum : StatementSummary := ⟨0, 0, 0, 0, none, none⟩

/-- C4 witness pages: no tokens, but text yielding a summary. -/
def c4pages : List PageData := [⟨[], "Opening Balance 1.00 Closing Balance 1.00"⟩]

/-- C4 witness parse input. -/
def c4inp : PdfInput := ⟨"a.pdf", true, true, some c4pages⟩

/-- The summary extracted from the C4 witness pages. -/
def c4ssum : StatementSummary := ⟨1, 1, 0, 0, none, none⟩

/-- C5 witness text: three of the four labels, no "Payments Out". -/
def c5text : String := "Opening Balance £10.00 Closing Balance 8.00 Payments In 3.00"

/-- The summary extracted from the C5 witness text. -/
def c5sum : StatementSummary := ⟨10, 8, 3, 0, none, none⟩

/-- C6 witness input: one page with one complete transaction line. -/
def c6pages : List (List Token) :=
  [[⟨"5", 20, 10⟩, ⟨"Jan", 40, 10⟩, ⟨"24", 60, 10⟩, ⟨"DD", 110, 10⟩,
    ⟨"Shop", 200, 10⟩, ⟨"12.50", 400, 10⟩]]

/-- The transaction extracted from the C6 witness input. -/
def c6tx : Transaction := ⟨⟨2024, 1, 5⟩, "DD", "Shop", some (mkRat 25 2), none, none, []⟩

/-- C8 input: one page, zero tokens on it. -/
def c8inp : PdfInput := ⟨"e.pdf", true, true, some [⟨[], ""⟩]⟩

/-- C9 failing input: a document with one transaction and no summary text. -/
def c9inp : PdfInput :=
  ⟨"t.pdf", true, true,
   some [⟨[⟨"5", 20, 10⟩, ⟨"Jan", 40, 10⟩, ⟨"24", 60, 10⟩, ⟨"DD", 110, 10⟩,
           ⟨"Shop", 200, 10⟩, ⟨"12.50", 400, 10⟩], ""⟩]⟩

/-! ## Generic lemmas: fold invariants and the stable sort -/

/-- A property preserved by each step is preserved by a left fold. -/
theorem foldl_preserve {α β : Type _} {P : β → Prop} (f : β → α → β)
    (hstep : ∀ s a, P s → P (f s a)) :
    ∀ (l : List α) (s : β), P s → P (l.foldl f s) := by
  intro l
  induction l with
  | nil => intro s hs; exact hs
  | cons x xs ih => intro s hs; exact ih _ (hstep _ _ hs)

/-- Membership in a stable insertion. -/
theorem mem_insSorted {α : Type _} (le : α → α → Bool) (x a : α) :
    ∀ l, a ∈ insSorted le x l ↔ a = x ∨ a ∈ l := by
  intro l
  induction l with
  | nil => simp [insSorted]
  | cons y ys ih =>
    by_cases h : le y x = true
    · simp only [insSorted, if_pos h, List.mem_cons, ih]
      tauto
    · simp only [insSorted, if_neg h, List.mem_cons]

/-- Stable insertion preserves sortedness. -/
theorem pairwise_insSorted {α : Type _} (le : α → α → Bool)
    (htot : ∀ a b, le a b = true ∨ le b a = true)
    (htrans : ∀ a b c, le a b = true → le b c = true → le a c = true)
    (x : α) :
    ∀ l, l.Pairwise (fun a b => le a b = true) →
      (insSorted le x l).Pairwise (fun a b => le a b = true) := by
  intro l
  induction l with
  | nil => intro _; simp [insSorted]
  | cons y ys ih =>
    intro hp
    obtain ⟨hy, hys⟩ := List.pairwise_cons.mp hp
    by_cases h : le y x = true
    · rw [insSorted, if_pos h]
      refine List.pairwise_cons.mpr ⟨?_, ih hys⟩
      intro b hb
      rcases (mem_insSorted le x b ys).mp hb with rfl | hbys
      · exact h
      · exact hy b hbys
    · rw [insSorted, if_neg h]
      have hx : le x y = true := (htot x y).resolve_right h
      refine List.pairwise_cons.mpr ⟨?_, hp⟩
      intro b hb
      rcases List.mem_cons.mp hb with rfl | hbys
      · exact hx
      · exact htrans x y b hx (hy b hbys)

/-- Inserting an element with a different key leaves a key's filter alone. -/
theorem filter_insSorted_ne {α κ : Type _} [DecidableEq κ]
    (le : α → α → Bool) (key : α → κ) (x : α) (d : κ) (hx : (key x == d) = false) :
    ∀ l, (insSorted le x l).filter (fun a => key a == d) =
      l.filter (fun a => key a == d) := by
  intro l
  induction l with
  | nil => simp [insSorted, hx]
  | cons y ys ih =>
    by_cases h : le y x = true
    · rw [insSorted, if_pos h]
      rw [List.filter_cons, List.filter_cons, ih]
    · rw [insSorted, if_neg h]
      rw [List.filter_cons, List.filter_cons]
      simp [hx]

/-- Inserting an element of key d into a sorted list appends it to the
key-d filter: the heart of stability. -/
theorem filter_insSorted_eq {α κ : Type _} [DecidableEq κ]
    (le : α → α → Bool) (key : α → κ)
    (htrans : ∀ a b c, le a b = true → le b c = true → le a c = true)
    (hcong : ∀ a b, key a = key b → le a b = true)
    (x : α) (d : κ) (hx : key x = d) :
    ∀ l, l.Pairwise (fun a b => le a b = true) →
      (insSorted le x l).filter (fun a => key a == d) =
        l.filter (fun a => key a == d) ++ [x] := by
  intro l
  induction l with
  | nil => simp [insSorted, hx]
  | cons y ys ih =>
    intro hp
    obtain ⟨hy, hys⟩ := List.pairwise_cons.mp hp
    by_cases h : le y x = true
    · rw [insSorted, if_pos h]
      rw [List.filter_cons, List.filter_cons, ih hys]
      by_cases hyd : (key y == d) = true
      · simp [hyd]
      · simp [hyd]
    · rw [insSorted, if_neg h]
      have hnone : ∀ z ∈ y :: ys, (key z == d) = false := by
        intro z hz
        by_contra hzd
        have hzd1 : (key z == d) = true := by
          rcases Bool.eq_false_or_eq_true (key z == d) with hb | hb
          · exact hb
          · exact absurd hb hzd
        have hzd' : key z = d := by simpa using hzd1
        have hzx : le z x = true := hcong z x (by rw [hzd', hx])
        rcases List.mem_cons.mp hz with rfl | hzys
        · exact h hzx
        · exact h (htrans y z x (hy z hzys) hzx)
      have hfil : (y :: ys).filter (fun a => key a == d) = [] := by
        apply List.filter_eq_nil_iff.mpr
        intro z hz
        simp [hnone z hz]
      rw [hfil, List.filter_cons]
      simp [hx, hfil]

/-- The sort fold keeps the accumulator sorted and concatenates filters. -/
theorem stableSort_go {α κ : Type _} [DecidableEq κ]
    (le : α → α → Bool) (key : α → κ)
    (htot : ∀ a b, le a b = true ∨ le b a = true)
    (htrans : ∀ a b c, le a b = true → le b c = true → le a c = true)
    (hcong : ∀ a b, key a = key b → le a b = true) (d : κ) :
    ∀ (l acc : List α), acc.Pairwise (fun a b => le a b = true) →
      (l.foldl (fun a x => insSorted le x a) acc).Pairwise (fun a b => le a b = true) ∧
      (l.foldl (fun a x => insSorted le x a) acc).filter (fun a => key a == d) =
        acc.filter (fun a => key a == d) ++ l.filter (fun a => key a == d) := by
  intro l
  induction l with
  | nil => intro acc hacc; exact ⟨hacc, by simp⟩
  | cons x xs ih =>
    intro acc hacc
    have hacc' := pairwise_insSorted le htot htrans x acc hacc
    obtain ⟨h1, h2⟩ := ih (insSorted le x acc) hacc'
    refine ⟨h1, ?_⟩
    rw [List.foldl_cons]
    rw [h2]
    by_cases hxd : key x = d
    · rw [filter_insSorted_eq le key htrans hcong x d hxd acc hacc]
      rw [List.filter_cons]
      simp [hxd]
    · have hxd' : (key x == d) = false := by simp [hxd]
      rw [filter_insSorted_ne le key x d hxd' acc]
      rw [List.filter_cons]
      simp [hxd']

/-- The stable sort sorts. -/
theorem stableSort_pairwise {α : Type _} (le : α → α → Bool)
    (htot : ∀ a b, le a b = true ∨ le b a = true)
    (htrans : ∀ a b c, le a b = true → le b c = true → le a c = true)
    (l : List α) :
    (stableSort le l).Pairwise (fun a b => le a b = true) := by
  suffices h : ∀ (m acc : List α), acc.Pairwise (fun a b => le a b = true) →
      (m.foldl (fun a x => insSorted le x a) acc).Pairwise (fun a b => le a b = true) by
    exact h l [] (by simp)
  intro m
  induction m with
  | nil => intro acc hacc; exact hacc
  | cons x xs ih => intro acc hacc; exact ih _ (pairwise_insSorted le htot htrans x acc hacc)

/-- Stability: sorting does not change the filter of any fixed key. -/
theorem stableSort_filter {α κ : Type _} [DecidableEq κ]
    (le : α → α → Bool) (key : α → κ)
    (htot : ∀ a b, le a b = true ∨ le b a = true)
    (htrans : ∀ a b c, le a b = true → le b c = true → le a c = true)
    (hcong : ∀ a b, key a = key b → le a b = true) (d : κ) (l : List α) :
    (stableSort le l).filter (fun a => key a == d) = l.filter (fun a => key a == d) := by
  have h := stableSort_go le key htot htrans hcong d l [] (by simp)
  simpa [stableSort] using h.2

/-- Membership is preserved by the stable sort. -/
theorem mem_stableSort {α : Type _} (le : α → α → Bool) (a : α) :
    ∀ (l acc : List α),
      (a ∈ l.foldl (fun acc x => insSorted le x acc) acc ↔ a ∈ acc ∨ a ∈ l) := by
  intro l
  induction l with
  | nil => intro acc; simp
  | cons x xs ih =>
    intro acc
    rw [List.foldl_cons, ih, mem_insSorted]
    simp only [List.mem_cons]
    tauto

/-! ## Date-order facts -/

/-- dateLe is total. -/
theorem dateLe_total (a b : Date) : dateLe a b = true ∨ dateLe b a = true := by
  simp only [dateLe, Bool.or_eq_true, Bool.and_eq_true, decide_eq_true_eq, beq_iff_eq]
  omega

/-- dateLe is transitive. -/
theorem dateLe_trans (a b c : Date) :
    dateLe a b = true → dateLe b c = true → dateLe a c = true := by
  simp only [dateLe, Bool.or_eq_true, Bool.and_eq_true, decide_eq_true_eq, beq_iff_eq]
  omega

/-- dateLe is reflexive. -/
theorem dateLe_refl (a : Date) : dateLe a a = true := by
  simp [dateLe]

/-- Transactions with equal dates compare below each other. -/
theorem txLe_of_date_eq (a b : Transaction) (h : a.date = b.date) : txLe a b = true := by
  unfold txLe
  rw [h]
  exact dateLe_refl b.date

/-! ## The extractor never writes the errors list -/

/-- save_transaction leaves errors alone. -/
theorem save_transaction_errors (s : ExtState) : (save_transaction s).errors = s.errors := rfl

/-- The date transition leaves errors alone. -/
theorem lineDateStep_errors (s : ExtState) (a : LineAcc) :
    (lineDateStep s a).errors = s.errors := by
  unfold lineDateStep
  split <;> rfl

/-- The payment-type transition leaves errors alone. -/
theorem linePtStep_errors (s : ExtState) (a : LineAcc) :
    (linePtStep s a).errors = s.errors := by
  unfold linePtStep
  split
  · split
    · rfl
    · split <;> rfl
  · rfl

/-- The description transition leaves errors alone. -/
theorem lineDescStep_errors (s : ExtState) (a : LineAcc) :
    (lineDescStep s a).errors = s.errors := by
  unfold lineDescStep
  split <;> rfl

/-- The amount transition leaves errors alone. -/
theorem lineAmountStep_errors (s : ExtState) (a : LineAcc) :
    (lineAmountStep s a).errors = s.errors := rfl

/-- Processing a line leaves errors alone. -/
theorem processLine_errors (s : ExtState) (ws : List TokenXY) :
    (processLine s ws).errors = s.errors := by
  unfold processLine
  split
  · rfl
  · split
    · rfl
    · split
      · rfl
      · rw [lineAmountStep_errors, lineDescStep_errors, linePtStep_errors, lineDateStep_errors]

/-- Processing a page leaves errors alone. -/
theorem processPage_errors (s : ExtState) (w : List Token) :
    (processPage s w).errors = s.errors := by
  unfold processPage
  suffices h : ∀ (lines : List (List TokenXY)) (t : ExtState),
      (lines.foldl processLine t).errors = t.errors by exact h _ s
  intro lines
  induction lines with
  | nil => intro t; rfl
  | cons l ls ih => intro t; rw [List.foldl_cons, ih, processLine_errors]

/-- The whole run keeps errors empty. -/
theorem extractRunState_errors (pages : List (List Token)) :
    (extractRunState pages).errors = [] := by
  unfold extractRunState
  suffices h : ∀ (ps : List (List Token)) (s : ExtState),
      (ps.foldl processPage s).errors = s.errors by rw [h]; rfl
  intro ps
  induction ps with
  | nil => intro s; rfl
  | cons p pp ih => intro s; rw [List.foldl_cons, ih, processPage_errors]

/-- The error component returned by the extractor is always empty. -/
theorem extract_errors_nil (pages : List (List Token)) :
    (extract_transactions_from_words pages).snd = [] := by
  unfold extract_transactions_from_words
  simp [save_transaction_errors, extractRunState_errors]

/-! ## The amount invariant -/

/-- Values produced by the float model are non-negative (no sign syntax). -/
theorem pyFloatCore_nonneg (ip rest : List Char) (v : ℚ)
    (h : pyFloatCore ip rest = some v) : 0 ≤ v := by
  unfold pyFloatCore at h
  split at h
  · split at h
    · exact absurd h (by simp)
    · have hv := Option.some.inj h
      rw [← hv, Rat.mkRat_eq_div]
      positivity
  · split at h
    · have hv := Option.some.inj h
      rw [← hv, Rat.mkRat_eq_div]
      positivity
    · exact absurd h (by simp)
  · exact absurd h (by simp)

/-- Values produced by the float model are non-negative. -/
theorem pyFloat_nonneg (s : String) (v : ℚ) (h : pyFloat s = some v) : 0 ≤ v :=
  pyFloatCore_nonneg _ _ v h

/-- parse_amount never returns a negative value. -/
theorem parse_amount_nonneg (s : String) : 0 ≤ parse_amount s := by
  unfold parse_amount
  split
  · exact le_refl 0
  · split
    · next v hv => exact pyFloat_nonneg _ v hv
    · exact le_refl 0

/-- Truthiness of an optional amount in terms of getD. -/
theorem optTruthy_iff (o : Option ℚ) : optTruthy o = true ↔ o.getD 0 ≠ 0 := by
  cases o <;> simp [optTruthy]

/-- One classification step keeps the line amounts non-negative. -/
theorem processWord_amounts (a : LineAcc) (w : TokenXY)
    (h : 0 ≤ a.paid_out.getD 0 ∧ 0 ≤ a.paid_in.getD 0) :
    0 ≤ (processWord a w).paid_out.getD 0 ∧ 0 ≤ (processWord a w).paid_in.getD 0 := by
  obtain ⟨h1, h2⟩ := h
  unfold processWord
  repeat' split
  all_goals
    first
      | exact ⟨h1, h2⟩
      | exact ⟨by simpa using parse_amount_nonneg w.text, h2⟩
      | exact ⟨h1, by simpa using parse_amount_nonneg w.text⟩

/-- A classified line's amounts are non-negative. -/
theorem classifyLine_amounts (ws : List TokenXY) :
    0 ≤ (classifyLine ws).paid_out.getD 0 ∧ 0 ≤ (classifyLine ws).paid_in.getD 0 := by
  unfold classifyLine
  exact foldl_preserve processWord (fun a w h => processWord_amounts a w h) ws initLineAcc
    ⟨le_refl 0, le_refl 0⟩

/-- save_transaction preserves the amount invariant. -/
theorem save_transaction_ok (s : ExtState) (h : stateAmountsOk s) :
    stateAmountsOk (save_transaction s) := by
  obtain ⟨htx, hpo, hpi⟩ := h
  refine ⟨?_, le_refl 0, le_refl 0⟩
  intro t ht
  rcases hd : s.current_date with _ | d
  · have he : (save_transaction s).transactions = s.transactions := by
      simp [save_transaction, hd]
    rw [he] at ht
    exact htx t ht
  · rcases hpt : s.current_payment_type with _ | pt
    · have he : (save_transaction s).transactions = s.transactions := by
        simp [save_transaction, hd, hpt]
      rw [he] at ht
      exact htx t ht
    · by_cases hc : (decide (pt ≠ "") &&
          (optTruthy s.current_paid_out || optTruthy s.current_paid_in)) = true
      · have he : (save_transaction s).transactions = s.transactions ++
            [⟨d, pt, String.intercalate " " s.current_description_parts,
              s.current_paid_out, s.current_paid_in, s.current_balance, []⟩] := by
          unfold save_transaction
          rw [hd, hpt]
          dsimp only
          rw [if_pos hc]
        rw [he] at ht
        rcases List.mem_append.mp ht with hold | hnew
        · exact htx t hold
        · have ht' : t = ⟨d, pt, String.intercalate " " s.current_description_parts,
              s.current_paid_out, s.current_paid_in, s.current_balance, []⟩ := by
            simpa using hnew
          subst ht'
          refine ⟨hpo, hpi, ?_⟩
          have hor := (Bool.and_eq_true _ _).mp hc
          rcases (Bool.or_eq_true _ _).mp hor.2 with hto | hti
          · exact Or.inl (lt_of_le_of_ne hpo (Ne.symm ((optTruthy_iff _).mp hto)))
          · exact Or.inr (lt_of_le_of_ne hpi (Ne.symm ((optTruthy_iff _).mp hti)))
      · have he : (save_transaction s).transactions = s.transactions := by
          unfold save_transaction
          rw [hd, hpt]
          dsimp only
          rw [if_neg hc]
          exact List.append_nil _
        rw [he] at ht
        exact htx t ht

/-- The date transition preserves the amount invariant. -/
theorem lineDateStep_ok (s : ExtState) (a : LineAcc) (h : stateAmountsOk s) :
    stateAmountsOk (lineDateStep s a) := by
  unfold lineDateStep
  split
  · exact save_transaction_ok s h
  · exact h

/-- The payment-type transition preserves the amount invariant. -/
theorem linePtStep_ok (s : ExtState) (a : LineAcc) (h : stateAmountsOk s) :
    stateAmountsOk (linePtStep s a) := by
  unfold linePtStep
  split
  · split
    · exact h
    · split
      · exact save_transaction_ok s h
      · exact h
  · exact h

/-- The description transition preserves the amount invariant. -/
theorem lineDescStep_ok (s : ExtState) (a : LineAcc) (h : stateAmountsOk s) :
    stateAmountsOk (lineDescStep s a) := by
  unfold lineDescStep
  split
  · exact h
  · exact h

/-- The amount transition preserves the amount invariant, provided the
line's classified amounts are non-negative. -/
theorem lineAmountStep_ok (s : ExtState) (a : LineAcc)
    (ha : 0 ≤ a.paid_out.getD 0 ∧ 0 ≤ a.paid_in.getD 0) (h : stateAmountsOk s) :
    stateAmountsOk (lineAmountStep s a) := by
  obtain ⟨htx, hpo, hpi⟩ := h
  refine ⟨htx, ?_, ?_⟩
  · rcases hv : a.paid_out with _ | v
    · simpa [lineAmountStep, hv] using hpo
    · have h1 := ha.1
      rw [hv] at h1
      simpa [lineAmountStep, hv] using h1
  · rcases hv : a.paid_in with _ | v
    · simpa [lineAmountStep, hv] using hpi
    · have h1 := ha.2
      rw [hv] at h1
      simpa [lineAmountStep, hv] using h1

/-- Processing a line preserves the amount invariant. -/
theorem processLine_ok (s : ExtState) (ws : List TokenXY) (h : stateAmountsOk s) :
    stateAmountsOk (processLine s ws) := by
  unfold processLine
  split
  · exact h
  · split
    · exact h
    · split
      · exact ⟨(save_transaction_ok s h).1, le_refl 0, le_refl 0⟩
      · exact lineAmountStep_ok _ _ (classifyLine_amounts ws)
          (lineDescStep_ok _ _ (linePtStep_ok _ _ (lineDateStep_ok _ _ h)))

/-- Processing a page preserves the amount invariant. -/
theorem processPage_ok (s : ExtState) (w : List Token) (h : stateAmountsOk s) :
    stateAmountsOk (processPage s w) := by
  unfold processPage
  exact foldl_preserve processLine (fun t l ht => processLine_ok t l ht) _ s h

/-- The amount invariant holds after the whole run. -/
theorem extractRunState_ok (pages : List (List Token)) :
    stateAmountsOk (extractRunState pages) := by
  unfold extractRunState
  exact foldl_preserve processPage (fun t w ht => processPage_ok t w ht) pages initExtState
    ⟨by intro t ht; exact absurd ht (by simp [initExtState]), le_refl 0, le_refl 0⟩

/-- Every transaction returned by the extractor satisfies the invariant. -/
theorem extract_mem_amountsOk (pages : List (List Token)) (t : Transaction)
    (ht : t ∈ (extract_transactions_from_words pages).fst) : amountsOk t := by
  have hmem : t ∈ (save_transaction (extractRunState pages)).transactions := by
    have h' := (mem_stableSort txLe t
      ((save_transaction (extractRunState pages)).transactions) []).mp ?_
    · rcases h' with h' | h'
      · exact absurd h' (by simp)
      · exact h'
    · simpa [extract_transactions_from_words, stableSort] using ht
  exact (save_transaction_ok _ (extractRunState_ok pages)).1 t hmem

/-! ## Parse-level helper lemmas -/

/-- success is computed from errors and the transaction count only, on
every path through parse. -/
theorem parse_success_iff (inp : PdfInput) :
    (parse inp).success = true ↔
      ((parse inp).errors = [] ∧ (parse inp).transactions ≠ []) := by
  rcases inp with ⟨fn, fe, ip, orr⟩
  cases fe
  · simp [parse]
  · cases ip
    · simp [parse]
    · rcases orr with _ | pages
      · simp [parse]
      · by_cases hp : (pages.map (fun p => p.words)).isEmpty = true
        · simp [parse, hp]
        · simp [parse, hp, List.length_pos]

/-- A singleton-or-empty ite on a list's own emptiness is the list. -/
theorem validate_some_fst (txs : List Transaction) (s : StatementSummary)
    (h : (validate_transactions txs (some s)).fst = true) :
    (validate_transactions txs (some s)).snd = [] := by
  unfold validate_transactions at h ⊢
  by_cases he : txs.isEmpty = true
  · rw [if_pos he] at h
    exact absurd h (by simp)
  · rw [if_neg he] at h ⊢
    dsimp only at h ⊢
    simpa using h

/-- The validation branch of parse forwards exactly the validator's
message list (is_valid true forces the list empty, given a summary). -/
theorem validate_if_fst (txs : List Transaction) (s : StatementSummary) :
    (if (validate_transactions txs (some s)).fst then ([] : List Msg)
      else (validate_transactions txs (some s)).snd) =
      (validate_transactions txs (some s)).snd := by
  by_cases hok : (validate_transactions txs (some s)).fst = true
  · rw [if_pos hok, validate_some_fst txs s hok]
  · rw [if_neg hok]

/-- When a summary is extracted, parse's warnings are the validator's
messages over the extracted transactions. -/
theorem parse_warnings_eq (inp : PdfInput) (pages : List PageData) (ssum : StatementSummary)
    (h2 : inp.fileExists = true) (h3 : inp.isPdf = true) (h4 : inp.openResult = some pages)
    (h5 : pages ≠ [])
    (h6 : extract_summary (String.intercalate "\n" (pages.map (fun p => p.text))) = some ssum) :
    (parse inp).warnings =
      (validate_transactions (parse inp).transactions (some ssum)).snd := by
  rcases inp with ⟨fn, fe, ip, orr⟩
  dsimp only at h2 h3 h4
  subst h2
  subst h3
  subst h4
  have hp : (pages.map (fun p => p.words)).isEmpty = false := by
    rcases pages with _ | ⟨p, ps⟩
    · exact absurd rfl h5
    · rfl
  simp [parse, hp, h6, validate_if_fst]

/-! ## All-empty pages support (C8) -/

/-- A page with no words leaves the state untouched. -/
theorem processPage_nilWords (s : ExtState) : processPage s [] = s := rfl

/-- When every page contributes zero tokens, nothing is extracted and no
error is recorded. -/
theorem extract_all_pages_empty (pages_words : List (List Token))
    (h : ∀ w ∈ pages_words, w = []) :
    extract_transactions_from_words pages_words = ([], []) := by
  have hrun : extractRunState pages_words = initExtState := by
    unfold extractRunState
    suffices haux : ∀ (ps : List (List Token)), (∀ w ∈ ps, w = []) →
        ps.foldl processPage initExtState = initExtState by exact haux _ h
    intro ps
    induction ps with
    | nil => intro _; rfl
    | cons w ws ih =>
      intro hh
      rw [List.foldl_cons, hh w (by simp), processPage_nilWords]
      exact ih (fun u hu => hh u (by simp [hu]))
  unfold extract_transactions_from_words
  rw [hrun]
  rfl

/-! ## Structure of amount-shaped tokens (C7) -/

/-- An amount-shaped token decomposes as digits/commas, a dot, two digits. -/
theorem amountShaped_parts (s : String) (h : amountShaped s = true) :
    ∃ rest d1 d2, s.data = rest.reverse ++ ['.', d1, d2] ∧ rest ≠ [] ∧
      rest.all amtChar = true ∧ d1.isDigit = true ∧ d2.isDigit = true := by
  unfold amountShaped at h
  rcases hrev : s.data.reverse with _ | ⟨d2, tl⟩
  · rw [hrev] at h
    exact absurd h (by simp)
  rcases tl with _ | ⟨d1, tl2⟩
  · rw [hrev] at h
    exact absurd h (by simp)
  rcases tl2 with _ | ⟨c, rest⟩
  · rw [hrev] at h
    exact absurd h (by simp)
  rw [hrev] at h
  simp only [Bool.and_eq_true, Bool.not_eq_true', beq_iff_eq] at h
  obtain ⟨⟨⟨⟨h1, h2⟩, hc⟩, h4⟩, h5⟩ := h
  subst hc
  refine ⟨rest, d1, d2, ?_, ?_, h2, h4, h5⟩
  · calc s.data = s.data.reverse.reverse := (List.reverse_reverse _).symm
    _ = (d2 :: d1 :: '.' :: rest).reverse := by rw [hrev]
    _ = rest.reverse ++ ['.', d1, d2] := by simp
  · intro hre
    rw [hre] at h1
    exact absurd h1 (by simp)

/-- Amount-shaped tokens have at least four characters. -/
theorem amountShaped_length (s : String) (h : amountShaped s = true) :
    4 ≤ s.data.length := by
  obtain ⟨rest, d1, d2, hs, hne, -, -, -⟩ := amountShaped_parts s h
  rw [hs, List.length_append, List.length_reverse]
  have := List.length_pos.mpr hne
  simp only [List.length_cons, List.length_nil]
  omega

/-- Amount-shaped tokens are not all-digit strings (they contain a dot). -/
theorem amountShaped_not_pyIsDigit (s : String) (h : amountShaped s = true) :
    pyIsDigit s = false := by
  obtain ⟨rest, d1, d2, hs, -, -, -, -⟩ := amountShaped_parts s h
  unfold pyIsDigit
  rw [hs]
  have hdot : ('.'.isDigit) = false := rfl
  simp [List.all_append, hdot]

/-- Amount-shaped tokens are not month abbreviations (length 3 < 4). -/
theorem amountShaped_not_month (s : String) (h : amountShaped s = true)
    (hm : s ∈ monthAbbrevs) : False := by
  have hl := amountShaped_length s h
  fin_cases hm <;> revert hl <;> decide

/-- Amount-shaped tokens never hit the payment-type vocabulary (all codes
have at most three characters). -/
theorem amountShaped_not_pt (s : String) (h : amountShaped s = true)
    (hm : pyUpper s ∈ PAYMENT_TYPES.map pyUpper) : False := by
  have hl := amountShaped_length s h
  rw [List.mem_map] at hm
  obtain ⟨pt, hpt, heq⟩ := hm
  have hlen : pt.data.length = s.data.length := by
    have h1 : (pyUpper pt).data.length = pt.data.length := by simp [pyUpper]
    have h2 : (pyUpper s).data.length = s.data.length := by simp [pyUpper]
    rw [← h1, heq, h2]
  fin_cases hpt <;> simp_all <;> omega

/-- Amount-shaped tokens are not the special three-paren code. -/
theorem amountShaped_ne_paren (s : String) (h : amountShaped s = true)
    (he : s = ")))") : False := by
  subst he
  exact absurd h (by decide)

/-! ## Claim theorems -/

/-- Claim C10: for every input, the error list returned as the second
component of extract_transactions_from_words is empty: the word-level
extractor never records a parsing error. -/
theorem claim_C10_no_errors (pages : List (List Token)) :
    (extract_transactions_from_words pages).snd = [] :=
  extract_errors_nil pages

/-- Claim C6: every transaction returned by extract_transactions_from_words
has paid_out and paid_in each absent or non-negative, and at least one of
the two present and strictly positive (getD 0 reads an absent amount as 0). -/
theorem claim_C6_amounts (pages : List (List Token)) (t : Transaction)
    (ht : t ∈ (extract_transactions_from_words pages).fst) :
    0 ≤ t.paid_out.getD 0 ∧ 0 ≤ t.paid_in.getD 0 ∧
      (0 < t.paid_out.getD 0 ∨ 0 < t.paid_in.getD 0) :=
  extract_mem_amountsOk pages t ht

/-- Witness for claim C6 at a concrete one-transaction document. -/
theorem claim_C6_amounts_witness :
    c6tx ∈ (extract_transactions_from_words c6pages).fst ∧
      (0 ≤ c6tx.paid_out.getD 0 ∧ 0 ≤ c6tx.paid_in.getD 0 ∧
        (0 < c6tx.paid_out.getD 0 ∨ 0 < c6tx.paid_in.getD 0)) :=
  ⟨by decide, claim_C6_amounts c6pages c6tx (by decide)⟩

/-- Claim C2: the transaction list returned by
extract_transactions_from_words is sorted in non-decreasing date order, and
for every date the transactions of that date appear exactly as in the
finalization-order list (the date sort is stable). -/
theorem claim_C2_sorted_stable (pages : List (List Token)) :
    ((extract_transactions_from_words pages).fst).Pairwise
      (fun a b => dateLe a.date b.date = true) ∧
    ∀ d : Date,
      ((extract_transactions_from_words pages).fst).filter (fun t => t.date == d) =
        ((save_transaction (extractRunState pages)).transactions).filter
          (fun t => t.date == d) := by
  have htot : ∀ a b : Transaction, txLe a b = true ∨ txLe b a = true :=
    fun a b => dateLe_total a.date b.date
  have htrans : ∀ a b c : Transaction, txLe a b = true → txLe b c = true → txLe a c = true :=
    fun a b c h1 h2 => dateLe_trans a.date b.date c.date h1 h2
  constructor
  · exact stableSort_pairwise txLe htot htrans
      ((save_transaction (extractRunState pages)).transactions)
  · intro d
    exact stableSort_filter txLe (fun t => t.date) htot htrans
      (fun a b hab => txLe_of_date_eq a b hab) d
      ((save_transaction (extractRunState pages)).transactions)

/-- Claim C3: a parse succeeds exactly when its errors list is empty and at
least one transaction was produced. -/
theorem claim_C3_success_iff (inp : PdfInput) :
    (parse inp).success = true ↔
      ((parse inp).errors = [] ∧ (parse inp).transactions ≠ []) :=
  parse_success_iff inp

/-- Claim C1 (amended): save_transaction emits exactly when the accumulator
holds a date, a nonempty payment type, and at least one of paid-out/paid-in
holding a NONZERO amount (Python truthiness: a held 0.0 counts as absent);
the emitted description is the space-joined word list, discarded candidates
leave the transactions untouched, and the errors list is never modified. -/
theorem claim_C1_finalize (s : ExtState) :
    ((s.current_date ≠ none ∧ s.current_payment_type ≠ none ∧
        s.current_payment_type ≠ some "" ∧
        (s.current_paid_out.getD 0 ≠ 0 ∨ s.current_paid_in.getD 0 ≠ 0)) →
      (save_transaction s).transactions = s.transactions ++
        [⟨s.current_date.getD ⟨0, 0, 0⟩, s.current_payment_type.getD "",
          String.intercalate " " s.current_description_parts,
          s.current_paid_out, s.current_paid_in, s.current_balance, []⟩]) ∧
    (¬(s.current_date ≠ none ∧ s.current_payment_type ≠ none ∧
        s.current_payment_type ≠ some "" ∧
        (s.current_paid_out.getD 0 ≠ 0 ∨ s.current_paid_in.getD 0 ≠ 0)) →
      (save_transaction s).transactions = s.transactions) ∧
    (save_transaction s).errors = s.errors := by
  refine ⟨?_, ?_, rfl⟩
  · rintro ⟨hd, hpt, hpe, ham⟩
    rcases hdd : s.current_date with _ | d
    · exact absurd hdd hd
    rcases hptt : s.current_payment_type with _ | pt
    · exact absurd hptt hpt
    have hpe' : pt ≠ "" := by
      rintro rfl
      exact hpe hptt
    have hc : (decide (pt ≠ "") &&
        (optTruthy s.current_paid_out || optTruthy s.current_paid_in)) = true := by
      rw [Bool.and_eq_true]
      refine ⟨by simpa using hpe', ?_⟩
      rw [Bool.or_eq_true]
      rcases ham with h | h
      · exact Or.inl ((optTruthy_iff _).mpr h)
      · exact Or.inr ((optTruthy_iff _).mpr h)
    unfold save_transaction
    rw [hdd, hptt]
    dsimp only
    rw [if_pos hc]
    rfl
  · intro hn
    rcases hdd : s.current_date with _ | d
    · unfold save_transaction
      rw [hdd]
      dsimp only
      exact List.append_nil _
    rcases hptt : s.current_payment_type with _ | pt
    · unfold save_transaction
      rw [hdd, hptt]
      dsimp only
      exact List.append_nil _
    · have hc : ¬((decide (pt ≠ "") &&
          (optTruthy s.current_paid_out || optTruthy s.current_paid_in)) = true) := by
        intro hb
        rw [Bool.and_eq_true, Bool.or_eq_true] at hb
        obtain ⟨hb1, hb2⟩ := hb
        apply hn
        refine ⟨by rw [hdd]; simp, by rw [hptt]; simp, ?_, ?_⟩
        · rw [hptt]
          intro hcon
          have hpe0 : pt = "" := Option.some.inj hcon
          exact (by simpa using hb1 : pt ≠ "") hpe0
        · rcases hb2 with hb2 | hb2
          · exact Or.inl ((optTruthy_iff _).mp hb2)
          · exact Or.inr ((optTruthy_iff _).mp hb2)
      unfold save_transaction
      rw [hdd, hptt]
      dsimp only
      rw [if_neg hc]
      exact List.append_nil _

/-- Witness for claim C1 at an emitting and a discarding accumulator. -/
theorem claim_C1_finalize_witness :
    (save_transaction c1emitState).transactions = c1emitState.transactions ++
      [⟨⟨2024, 1, 5⟩, "DD", "Direct Debit", some (mkRat 1250 100), none, none, []⟩] ∧
    (save_transaction c1dropState).transactions = c1dropState.transactions ∧
    (save_transaction c1emitState).errors = c1emitState.errors := by
  refine ⟨?_, ?_, (claim_C1_finalize c1emitState).2.2⟩
  · exact (claim_C1_finalize c1emitState).1 (by decide)
  · exact (claim_C1_finalize c1dropState).2.1 (by decide)

/-- Counterexample to claim C1 as stated: after this run the accumulator
holds a date, a payment type and a (zero) paid-out amount, yet no
transaction is emitted at the final finalization point. -/
theorem claim_C1_counterexample :
    (extractRunState c1pages).current_date.isSome = true ∧
    (extractRunState c1pages).current_payment_type = some "DD" ∧
    (extractRunState c1pages).current_paid_out = some 0 ∧
    (extract_transactions_from_words c1pages).fst = [] := by
  refine ⟨by decide, by decide, by decide, by decide⟩

/-- Claim C4: with a non-empty transaction list and a summary, the
validator produces each mismatch message exactly when the corresponding
absolute difference exceeds the 0.02 tolerance; when a summary is
extracted the messages become the ParseResult's warnings; and success is
still computed from errors and transactions only, so warnings never flip
it. -/
theorem claim_C4_validation (txs : List Transaction) (s : StatementSummary) (inp : PdfInput)
    (pages : List PageData) (ssum : StatementSummary)
    (h1 : txs ≠ [])
    (h2 : inp.fileExists = true) (h3 : inp.isPdf = true) (h4 : inp.openResult = some pages)
    (h5 : pages ≠ [])
    (h6 : extract_summary (String.intercalate "\n" (pages.map (fun p => p.text))) = some ssum) :
    (Msg.paymentsInMismatch ∈ (validate_transactions txs (some s)).snd ↔
        mkRat 2 100 < |totalIn txs - s.payments_in|) ∧
    (Msg.paymentsOutMismatch ∈ (validate_transactions txs (some s)).snd ↔
        mkRat 2 100 < |totalOut txs - s.payments_out|) ∧
    (Msg.balanceMismatch ∈ (validate_transactions txs (some s)).snd ↔
        mkRat 2 100 < |s.opening_balance + totalIn txs - totalOut txs - s.closing_balance|) ∧
    (parse inp).warnings = (validate_transactions (parse inp).transactions (some ssum)).snd ∧
    ((parse inp).success = true ↔
      ((parse inp).errors = [] ∧ (parse inp).transactions ≠ [])) := by
  have hne : txs.isEmpty = false := by
    rcases txs with _ | ⟨t, ts⟩
    · exact absurd rfl h1
    · rfl
  have hval : (validate_transactions txs (some s)).snd =
      (if mkRat 2 100 < |totalIn txs - s.payments_in|
        then [Msg.paymentsInMismatch] else []) ++
      (if mkRat 2 100 < |totalOut txs - s.payments_out|
        then [Msg.paymentsOutMismatch] else []) ++
      (if mkRat 2 100 < |s.opening_balance + totalIn txs - totalOut txs - s.closing_balance|
        then [Msg.balanceMismatch] else []) := by
    simp [validate_transactions, hne]
  refine ⟨?_, ?_, ?_, parse_warnings_eq inp pages ssum h2 h3 h4 h5 h6, parse_success_iff inp⟩
  · rw [hval]
    split_ifs with a1 a2 a3 <;> simp_all
  · rw [hval]
    split_ifs with a1 a2 a3 <;> simp_all
  · rw [hval]
    split_ifs with a1 a2 a3 <;> simp_all

/-- Witness for claim C4 at a concrete document and summary. -/
theorem claim_C4_validation_witness :
    (Msg.paymentsInMismatch ∈ (validate_transactions c4txs (some c4sum)).snd ↔
        mkRat 2 100 < |totalIn c4txs - c4sum.payments_in|) ∧
    (Msg.paymentsOutMismatch ∈ (validate_transactions c4txs (some c4sum)).snd ↔
        mkRat 2 100 < |totalOut c4txs - c4sum.payments_out|) ∧
    (Msg.balanceMismatch ∈ (validate_transactions c4txs (some c4sum)).snd ↔
        mkRat 2 100 <
          |c4sum.opening_balance + totalIn c4txs - totalOut c4txs - c4sum.closing_balance|) ∧
    (parse c4inp).warnings =
      (validate_transactions (parse c4inp).transactions (some c4ssum)).snd ∧
    ((parse c4inp).success = true ↔
      ((parse c4inp).errors = [] ∧ (parse c4inp).transactions ≠ [])) :=
  claim_C4_validation c4txs c4sum c4inp c4pages c4ssum (by decide) rfl rfl rfl
    (by decide) (by decide)

/-- Claim C5: extract_summary produces a StatementSummary exactly when at
least two of the four label patterns are found, and any field whose label
pattern found nothing is zero. -/
theorem claim_C5_summary (t : String) :
    ((extract_summary t).isSome = decide (2 ≤ summaryFieldsFound t)) ∧
    ∀ s, extract_summary t = some s →
      (findOpeningBalance t = none → s.opening_balance = 0) ∧
      (findClosingBalance t = none → s.closing_balance = 0) ∧
      (findPaymentsIn t = none → s.payments_in = 0) ∧
      (findPaymentsOut t = none → s.payments_out = 0) := by
  constructor
  · unfold extract_summary
    by_cases h : 2 ≤ summaryFieldsFound t
    · rw [if_pos h]
      simp [h]
    · rw [if_neg h]
      simp [h]
  · intro s hs
    unfold extract_summary at hs
    split_ifs at hs
    · have hv := Option.some.inj hs
      subst hv
      refine ⟨?_, ?_, ?_, ?_⟩ <;> intro hnone <;> simp [hnone]

/-- Witness for claim C5: text with three labels and no "Payments Out"
still yields a summary, with payments_out defaulted to zero. -/
theorem claim_C5_summary_witness :
    extract_summary c5text = some c5sum ∧ findPaymentsOut c5text = none ∧
      c5sum.payments_out = 0 := by
  refine ⟨by decide, by decide, ?_⟩
  exact (((claim_C5_summary c5text).2 c5sum (by decide)).2.2.2) (by decide)

/-- Claim C7 (amended): an amount-shaped token whose x lies outside all
three amount bands is appended to the line's description words exactly when
100 <= x; in the date band (x < 100) it is dropped entirely. -/
theorem claim_C7_amount_desc (a : LineAcc) (w : TokenXY)
    (hsh : amountShaped w.text = true) (hout : w.x < 350) :
    (processWord a w).description_words =
      if 100 ≤ w.x then a.description_words ++ [w.text] else a.description_words := by
  unfold processWord
  by_cases h1 : w.x < 100
  · rw [if_pos h1]
    have hnd := amountShaped_not_pyIsDigit w.text hsh
    have hnm : w.text ∉ monthAbbrevs := fun hm => amountShaped_not_month w.text hsh hm
    rw [if_neg (by simp [hnd]), if_neg hnm, if_neg (by simp [hnd]),
      if_neg (by intro hge; linarith)]
  · rw [if_neg h1]
    have h1' : (100 : ℚ) ≤ w.x := le_of_not_lt h1
    by_cases h2 : w.x < 130
    · rw [if_pos ⟨h1', h2⟩]
      have hnp : pyUpper w.text ∉ PAYMENT_TYPES.map pyUpper :=
        fun hm => amountShaped_not_pt w.text hsh hm
      rw [if_neg hnp, if_neg (fun he => amountShaped_ne_paren w.text hsh he), if_pos h1']
    · rw [if_neg (fun hcon => h2 hcon.2), if_pos hsh,
        if_neg (fun hcon => absurd hout (not_lt.mpr hcon.1)),
        if_neg (fun hcon => by linarith [hcon.1]), if_neg (by intro hge; linarith),
        if_pos h1']

/-- Witness for claim C7 at a description-area amount token. -/
theorem claim_C7_amount_desc_witness :
    amountShaped "12.50" = true ∧ ((200 : ℚ) < 350) ∧
      (processWord initLineAcc ⟨200, "12.50"⟩).description_words =
        (if (100 : ℚ) ≤ 200 then initLineAcc.description_words ++ ["12.50"]
          else initLineAcc.description_words) :=
  ⟨by decide, by decide,
    claim_C7_amount_desc initLineAcc ⟨200, "12.50"⟩ (by decide) (by decide)⟩

/-- Counterexample to claim C7 as stated: an amount-shaped token in the
date band (outside all three amount bands) is dropped, not appended to the
description word list. -/
theorem claim_C7_counterexample :
    amountShaped "12.50" = true ∧ ((50 : ℚ) < 350) ∧
      (processWord initLineAcc ⟨50, "12.50"⟩).description_words = [] := by
  refine ⟨by decide, by decide, by decide⟩

/-- Claim C8 (amended): when every page yields zero tokens the parse fails
(success is false), but an error message is appended only in the degenerate
zero-page case; with at least one page the errors list stays empty. -/
theorem claim_C8_empty_pages (inp : PdfInput) (pages : List PageData)
    (h2 : inp.fileExists = true) (h3 : inp.isPdf = true) (h4 : inp.openResult = some pages)
    (hall : ∀ p ∈ pages, p.words = []) :
    (parse inp).success = false ∧
      (parse inp).errors = (if pages.isEmpty then [Msg.noContent] else []) := by
  rcases inp with ⟨fn, fe, ip, orr⟩
  dsimp only at h2 h3 h4
  subst h2
  subst h3
  subst h4
  rcases pages with _ | ⟨p, ps⟩
  · simp [parse]
  · have hext : extract_transactions_from_words ((p :: ps).map (fun q => q.words)) =
        ([], []) := by
      apply extract_all_pages_empty
      intro w hw
      rw [List.mem_map] at hw
      obtain ⟨q, hq, hqw⟩ := hw
      rw [← hqw]
      exact hall q hq
    rw [List.map_cons] at hext
    simp [parse, hext]

/-- Witness for claim C8 at a one-page, zero-token document. -/
theorem claim_C8_empty_pages_witness :
    (parse c8inp).success = false ∧
      (parse c8inp).errors =
        (if ([(⟨[], ""⟩ : PageData)] : List PageData).isEmpty then [Msg.noContent] else []) :=
  claim_C8_empty_pages c8inp [⟨[], ""⟩] rfl rfl rfl (by decide)

/-- Counterexample to claim C8 as stated: a document whose single page
yields zero tokens aborts with success false but records NO error message. -/
theorem claim_C8_counterexample :
    (parse c8inp).errors = [] ∧ (parse c8inp).success = false := by
  refine ⟨by decide, by decide⟩

/-- Claim C9, evaluated at the failing input: a document with one
transaction and no summary text parses with summary none, an EMPTY warnings
list (the absent-summary warning is never recorded: parse skips validation
when the summary is missing), and success unaffected. -/
theorem claim_C9_no_warning :
    (parse c9inp).summary = none ∧ (parse c9inp).warnings = [] ∧
      (parse c9inp).success = true := by
  refine ⟨by decide, by decide, by decide⟩
